import Mathlib

/-!
Verification of the SolWatcher incremental time-series core (src/main.py).

The price series is a polars DataFrame with columns `price_usd` and `time`;
we model it as a `List Sample`, a sample being the pair (price, time), with
time measured in rational seconds (Python datetimes carry microsecond
precision, which embeds exactly in ℚ for the quantities at play here).
Prices are rationals as well (the source works with floats; none of the
properties below depend on rounding of float arithmetic).
-/

/-- A row of the DataFrame: (price_usd, time).  `Prod.snd` is the `time`
column, `Prod.fst` the `price_usd` column. -/
abbrev Sample : Type := ℚ × ℚ

/-- Model of `datetime.replace(microsecond=0)`: drop the sub-second part.
Calendar datetimes are never negative in the seconds encoding, where this is
exactly the floor. -/
def truncSec (t : ℚ) : ℚ := (⌊t⌋ : ℚ)

/-- Model of Python `int()` applied to a (possibly fractional) number of
seconds: truncation toward zero. -/
def pyInt (q : ℚ) : ℤ := if 0 ≤ q then ⌊q⌋ else ⌈q⌉

/-- `add_new_records` (src/main.py lines 159-168): walk the new records in
order and append each one whose timestamp is not already present in the
accumulated timestamp column.  The source keeps two parallel lists
`(prices, timestamps)` of equal length and appends to both; we model the
pair of parallel lists as one list of (price, time) pairs.  The membership
test is against the *growing* list, exactly as in the source, so duplicates
inside the new batch itself are also dropped. -/
def add_new_records : List Sample → List Sample → List Sample
  | acc, [] => acc
  | acc, r :: rest =>
    if r.2 ∈ acc.map Prod.snd then add_new_records acc rest
    else add_new_records (acc ++ [r]) rest

/-- The records that `add_new_records` appends (the suffix it adds after the
existing series); helper for reasoning, `add_new_records acc B = acc ++
new_recs acc B`. -/
def new_recs : List Sample → List Sample → List Sample
  | _, [] => []
  | acc, r :: rest =>
    if r.2 ∈ acc.map Prod.snd then new_recs acc rest
    else r :: new_recs (acc ++ [r]) rest

/-- Model of `polars.Series.min()` on the time column: `None` on an empty
column, otherwise the minimum. -/
def listMin : List ℚ → Option ℚ
  | [] => none
  | t :: ts =>
    match listMin ts with
    | none => some t
    | some m => some (min t m)

/-- Model of `polars.Series.max()` on the time column. -/
def listMax : List ℚ → Option ℚ
  | [] => none
  | t :: ts =>
    match listMax ts with
    | none => some t
    | some m => some (max t m)

/-- Minimum of the `time` column of a DataFrame. -/
def colMin (df : List Sample) : Option ℚ := listMin (df.map Prod.snd)

/-- Maximum of the `time` column of a DataFrame. -/
def colMax (df : List Sample) : Option ℚ := listMax (df.map Prod.snd)

/-- Model of `df.filter(pl.col('time').is_between(start, end, closed="both"))`
(src/main.py line 304): keep the rows whose time lies in `[s, e]`. -/
def dfFilterBetween (df : List Sample) (s e : ℚ) : List Sample :=
  df.filter (fun r => decide (s ≤ r.2 ∧ r.2 ≤ e))

/-- `get_time_area_extremes` (src/main.py lines 289-314): cut the DataFrame
to `[start, end_t]` when `cut_area` is true, then return the (min, max) of
the `time` column of the cut.  polars' min/max return `None` on an empty
frame.  (The `plot` argument of the source only draws; it is dropped.) -/
def get_time_area_extremes (df : List Sample) (start end_t : ℚ)
    (cut_area : Bool) : Option ℚ × Option ℚ :=
  let df_cut := if cut_area then dfFilterBetween df start end_t else df
  (listMin (df_cut.map Prod.snd), listMax (df_cut.map Prod.snd))

/-- Model of `df.filter(pl.col('time') == t)` where `t` came from a polars
min/max and may be `None`: comparison against null matches no row. -/
def filterTimeEq (df : List Sample) (t : Option ℚ) : List Sample :=
  match t with
  | none => []
  | some t0 => df.filter (fun r => decide (r.2 = t0))

/-- Timestamp synthesis of `download_hist_data` (src/main.py lines 212-233).
`delta = time_e - time_s` is taken *before* the whole-second truncation of
`time_s`/`time_e`; then `delta = delta / n_records`, and the i-th timestamp
(i = 1..n) is `(time_s_truncated + i*delta).replace(microsecond=0)`.  Only
the prices of the JSON payload are read (`[:, 1]`); the payload's own
per-point timestamps are never used, and `n_records` is the number of
returned prices.  (Python `timedelta / int` rounds to microseconds; we keep
exact rational division, which agrees on every concrete instance used
below.) -/
def download_hist_data_timestamps (time_s time_e : ℚ) (n_records : ℕ) : List ℚ :=
  (List.range n_records).map
    (fun (i : ℕ) => truncSec (truncSec time_s + ((i : ℚ) + 1) * ((time_e - time_s) / (n_records : ℚ))))

/-- Modelled from the spec: "point *i* of *n* maps to `start + i *
(end-start)/n`" with second-precision timestamps — the truncation applied
once, to the interpolated instant.  Stated to compare with the source's
`download_hist_data_timestamps`. -/
def download_timestamps_spec (time_s time_e : ℚ) (n_records : ℕ) : List ℚ :=
  (List.range n_records).map
    (fun (i : ℕ) => truncSec (time_s + ((i : ℚ) + 1) * ((time_e - time_s) / (n_records : ℚ))))

/-- `get_time_diff` truncated to whole minutes as in `refresh_dataframe`
(src/main.py line 344): `int(time_diff.total_seconds()) // 60`, with
`time_diff = now1 - latest_record`.  Python `//` is floor division. -/
def timediff_minutes (latest now1 : ℚ) : ℤ := Int.fdiv (pyInt (now1 - latest)) 60

/-- The fetch decision of `refresh_dataframe` (src/main.py line 347):
update iff `timediff_minutes > min_diff`. -/
def refresh_fetch_decision (latest now1 : ℚ) (min_diff : ℤ) : Bool :=
  decide (min_diff < timediff_minutes latest now1)

/-- The start of the fetched window (src/main.py lines 348-349):
`current_time - timedelta(minutes=timediff_minutes)`, where `current_time`
is a *second* clock reading (`now2`), taken after the one (`now1`) used for
the minute count. -/
def refresh_start_time (latest now1 now2 : ℚ) : ℚ :=
  now2 - 60 * ((timediff_minutes latest now1 : ℤ) : ℚ)

/-- `refresh_dataframe` (src/main.py lines 336-357): if the minute-truncated
gap exceeds `min_diff`, download `[start_time, now2]` and concatenate the
new frame below the old one (`pl.concat(..., how="vertical")` — no sort, no
dedup); otherwise leave the DataFrame unchanged.  `latest` is the maximum of
the `time` column (obtained in the source through `get_time_diff` /
`get_time_extremes`); it is passed explicitly here and theorems constrain it
by `colMax df = some latest`.  `prices` is the price list of the API payload;
the fetched timestamps are synthesized by `download_hist_data_timestamps`
with `n_records = prices.length`, and the new frame pairs them columnwise. -/
def refresh_dataframe (df : List Sample) (latest now1 now2 : ℚ) (min_diff : ℤ)
    (prices : List ℚ) : List Sample :=
  if refresh_fetch_decision latest now1 min_diff then
    df ++ prices.zip
      (download_hist_data_timestamps (refresh_start_time latest now1 now2) now2 prices.length)
  else df

/-- Model of Python `str.upper()` (ASCII uppercasing suffices for the
currency codes at play). -/
def strUpper (s : String) : String := String.mk (s.toList.map Char.toUpper)

/-- Failure outcomes of the statistics computation.  The first two are the
Python exceptions the source can actually raise inside `print_move_stats`
(indexing `[0]` on an empty filtered frame; float division by zero).
Modelled from the spec: the last two are the spec's `StatsError` taxonomy
(`InsufficientHistory`, `DegeneratePrice`, §7), which has no counterpart
anywhere in the source; they are present so that spec-vs-code claims about
the error identity are statable, and the code model never produces them. -/
inductive FailKind : Type
  | indexError : FailKind
  | zeroDivisionError : FailKind
  | statsInsufficientHistory : FailKind
  | statsDegeneratePrice : FailKind
deriving DecidableEq

/-- The statistics core of `print_move_stats` (src/main.py lines 420-470):
window `[current_time - delta, current_time]`, boundary times via
`get_time_area_extremes` with `cut_area = True`, boundary rows by filtering
the *full* frame on time equality and taking row 0 (an empty filter raises
an IndexError — out-of-bounds row 0), optional conversion when the
uppercased fiat differs from USD *and* is a key of the rates dict (silently
skipped otherwise), and `price_diff = (new_price / old_price - 1) * 100`,
which in Python raises ZeroDivisionError when `old_price == 0`.  The result
models (old_price, new_price, price_diff) after conversion; printing and
label updates are dropped.  The rates dict is modelled as a partial map. -/
def print_move_stats (df : List Sample) (rates : String → Option ℚ)
    (fiat : String) (current_time delta : ℚ) : Except FailKind (ℚ × ℚ × ℚ) :=
  let fiatU := strUpper fiat
  let back_time := current_time - delta
  let ex := get_time_area_extremes df back_time current_time true
  match (filterTimeEq df ex.1).head?, (filterTimeEq df ex.2).head? with
  | some oldRow, some newRow =>
    let p : ℚ × ℚ :=
      if fiatU ≠ "USD" then
        match rates fiatU with
        | some r => (oldRow.1 * r, newRow.1 * r)
        | none => (oldRow.1, newRow.1)
      else (oldRow.1, newRow.1)
    if p.1 = 0 then Except.error FailKind.zeroDivisionError
    else Except.ok (p.1, p.2, (p.2 / p.1 - 1) * 100)
  | _, _ => Except.error FailKind.indexError

/-- The row the statistics computation resolves as the window-start sample:
the first row of the full frame whose time equals the minimum time of the
window slice. -/
def resolvedStart (df : List Sample) (current_time delta : ℚ) : Option Sample :=
  (filterTimeEq df (get_time_area_extremes df (current_time - delta) current_time true).1).head?

/-- The `time` column is non-decreasing (the series "sorted ascending by
timestamp" invariant). -/
abbrev timesSorted (l : List Sample) : Prop :=
  List.Pairwise (· ≤ ·) (l.map Prod.snd)

/-! ### Helper lemmas: column minima and maxima -/

theorem listMin_cons (t : ℚ) (ts : List ℚ) :
    listMin (t :: ts) =
      some (match listMin ts with | none => t | some m => min t m) := by
  cases h : listMin ts <;> simp [listMin, h]

theorem listMax_cons (t : ℚ) (ts : List ℚ) :
    listMax (t :: ts) =
      some (match listMax ts with | none => t | some m => max t m) := by
  cases h : listMax ts <;> simp [listMax, h]

theorem listMin_eq_none {l : List ℚ} (h : listMin l = none) : l = [] := by
  cases l with
  | nil => rfl
  | cons t ts => rw [listMin_cons] at h; exact absurd h (by simp)

theorem listMax_eq_none {l : List ℚ} (h : listMax l = none) : l = [] := by
  cases l with
  | nil => rfl
  | cons t ts => rw [listMax_cons] at h; exact absurd h (by simp)

theorem listMin_mem {l : List ℚ} {m : ℚ} (h : listMin l = some m) : m ∈ l := by
  induction l generalizing m with
  | nil => exact absurd h (by simp [listMin])
  | cons t ts ih =>
    rw [listMin_cons] at h
    cases hts : listMin ts with
    | none => rw [hts] at h; simp at h; simp [h]
    | some m' =>
      rw [hts] at h; simp at h
      rcases min_choice t m' with hc | hc <;> rw [← h, hc]
      · simp
      · exact List.mem_cons_of_mem _ (ih hts)

theorem listMax_mem {l : List ℚ} {m : ℚ} (h : listMax l = some m) : m ∈ l := by
  induction l generalizing m with
  | nil => exact absurd h (by simp [listMax])
  | cons t ts ih =>
    rw [listMax_cons] at h
    cases hts : listMax ts with
    | none => rw [hts] at h; simp at h; simp [h]
    | some m' =>
      rw [hts] at h; simp at h
      rcases max_choice t m' with hc | hc <;> rw [← h, hc]
      · simp
      · exact List.mem_cons_of_mem _ (ih hts)

theorem listMin_le {l : List ℚ} {m : ℚ} (h : listMin l = some m) :
    ∀ x ∈ l, m ≤ x := by
  induction l generalizing m with
  | nil => simp
  | cons t ts ih =>
    rw [listMin_cons] at h
    intro x hx
    cases hts : listMin ts with
    | none =>
      rw [hts] at h; simp at h
      rcases List.mem_cons.mp hx with hx | hx
      · rw [hx, h]
      · exact absurd (listMin_eq_none hts ▸ hx) (List.not_mem_nil x)
    | some m' =>
      rw [hts] at h; simp at h
      rcases List.mem_cons.mp hx with hx | hx
      · rw [← h, hx]; exact min_le_left _ _
      · exact le_trans (h ▸ min_le_right t m') (ih hts x hx)

theorem listMax_ge {l : List ℚ} {m : ℚ} (h : listMax l = some m) :
    ∀ x ∈ l, x ≤ m := by
  induction l generalizing m with
  | nil => simp
  | cons t ts ih =>
    rw [listMax_cons] at h
    intro x hx
    cases hts : listMax ts with
    | none =>
      rw [hts] at h; simp at h
      rcases List.mem_cons.mp hx with hx | hx
      · rw [hx, h]
      · exact absurd (listMax_eq_none hts ▸ hx) (List.not_mem_nil x)
    | some m' =>
      rw [hts] at h; simp at h
      rcases List.mem_cons.mp hx with hx | hx
      · rw [← h, hx]; exact le_max_left _ _
      · exact le_trans (ih hts x hx) (h ▸ le_max_right t m')

theorem listMin_of_ne_nil {l : List ℚ} (h : l ≠ []) : ∃ m, listMin l = some m := by
  cases hm : listMin l with
  | none => exact absurd (listMin_eq_none hm) h
  | some m => exact ⟨m, rfl⟩

theorem listMax_of_ne_nil {l : List ℚ} (h : l ≠ []) : ∃ m, listMax l = some m := by
  cases hm : listMax l with
  | none => exact absurd (listMax_eq_none hm) h
  | some m => exact ⟨m, rfl⟩

/-! ### Helper lemmas: the merge `add_new_records` -/

theorem mem_snd_add_new_records_of_mem (B : List Sample) :
    ∀ (acc : List Sample) (t : ℚ),
      t ∈ acc.map Prod.snd → t ∈ (add_new_records acc B).map Prod.snd := by
  induction B with
  | nil => intro acc t h; exact h
  | cons b rest ih =>
    intro acc t h
    by_cases hb : b.2 ∈ acc.map Prod.snd
    · simpa [add_new_records, hb] using ih acc t h
    · have h2 : t ∈ (acc ++ [b]).map Prod.snd := by simp [h]
      simpa [add_new_records, hb] using ih (acc ++ [b]) t h2

theorem mem_snd_add_new_records_batch (B : List Sample) :
    ∀ (acc : List Sample) (r : Sample),
      r ∈ B → r.2 ∈ (add_new_records acc B).map Prod.snd := by
  induction B with
  | nil => simp
  | cons b rest ih =>
    intro acc r hr
    by_cases hb : b.2 ∈ acc.map Prod.snd
    · rcases List.mem_cons.mp hr with h | h
      · subst h
        simpa [add_new_records, hb] using mem_snd_add_new_records_of_mem rest acc _ hb
      · simpa [add_new_records, hb] using ih acc r h
    · rcases List.mem_cons.mp hr with h | h
      · subst h
        have h2 : r.2 ∈ (acc ++ [r]).map Prod.snd := by simp
        simpa [add_new_records, hb] using mem_snd_add_new_records_of_mem rest (acc ++ [r]) _ h2
      · simpa [add_new_records, hb] using ih (acc ++ [b]) r h

theorem add_new_records_no_new (B : List Sample) :
    ∀ acc, (∀ r ∈ B, r.2 ∈ acc.map Prod.snd) → add_new_records acc B = acc := by
  induction B with
  | nil => intro acc _; rfl
  | cons b rest ih =>
    intro acc h
    have hb : b.2 ∈ acc.map Prod.snd := h b (List.mem_cons_self b rest)
    simp only [add_new_records, List.elem_eq_mem, if_pos hb]
    exact ih acc fun r hr => h r (List.mem_cons_of_mem _ hr)

/-- C3: merge is idempotent — merging the same batch a second time appends
nothing, because after the first merge every timestamp of the batch is
already present in the series, so `merge(merge(S,B),B) = merge(S,B)`
(full equality of the resulting rows, prices included). -/
theorem add_new_records_idempotent (S B : List Sample) :
    add_new_records (add_new_records S B) B = add_new_records S B :=
  add_new_records_no_new B _ fun r hr => mem_snd_add_new_records_batch B S r hr

theorem add_new_records_eq_append (B : List Sample) :
    ∀ acc, add_new_records acc B = acc ++ new_recs acc B := by
  induction B with
  | nil => intro acc; simp [add_new_records, new_recs]
  | cons b rest ih =>
    intro acc
    by_cases hb : b.2 ∈ acc.map Prod.snd
    · simp [add_new_records, new_recs, hb, ih acc]
    · simp [add_new_records, new_recs, hb, ih (acc ++ [b])]

theorem snd_new_recs_subset (B : List Sample) :
    ∀ acc t, t ∈ (new_recs acc B).map Prod.snd → t ∈ B.map Prod.snd := by
  induction B with
  | nil => simp [new_recs]
  | cons b rest ih =>
    intro acc t h
    by_cases hb : b.2 ∈ acc.map Prod.snd
    · simp only [new_recs, List.elem_eq_mem, if_pos hb] at h
      exact List.mem_cons_of_mem _ (ih acc t h)
    · simp only [new_recs, List.elem_eq_mem, if_neg hb, List.map_cons, List.mem_cons] at h
      rcases h with h | h
      · simp [h]
      · exact List.mem_cons_of_mem _ (ih (acc ++ [b]) t h)

theorem new_recs_congr (B : List Sample) :
    ∀ acc acc',
      (∀ t ∈ B.map Prod.snd, (t ∈ acc.map Prod.snd ↔ t ∈ acc'.map Prod.snd)) →
      new_recs acc B = new_recs acc' B := by
  induction B with
  | nil => intro acc acc' _; rfl
  | cons b rest ih =>
    intro acc acc' h
    have hb := h b.2 (by simp)
    by_cases hmem : b.2 ∈ acc.map Prod.snd
    · have hmem' : b.2 ∈ acc'.map Prod.snd := hb.mp hmem
      simp only [new_recs, List.elem_eq_mem, if_pos hmem, if_pos hmem']
      exact ih acc acc' fun t ht => h t (by simp [ht])
    · have hmem' : b.2 ∉ acc'.map Prod.snd := fun hc => hmem (hb.mpr hc)
      simp only [new_recs, List.elem_eq_mem, if_neg hmem, if_neg hmem']
      refine congrArg (b :: ·) (ih (acc ++ [b]) (acc' ++ [b]) fun t ht => ?pres)
      have := h t (by simp [ht])
      simp only [List.map_append, List.mem_append]
      simp [this]

/-- C6 counterexample: `add_new_records` appends the genuinely new rows at
the tail in batch order, so merging two disjoint singleton batches in the
two orders yields the two different row orders — the resulting DataFrames
are not equal (the claim's "same final series" fails on equality of
sequences). -/
theorem add_new_records_comm_counterexample :
    (∀ t ∈ [((1:ℚ),(10:ℚ))].map Prod.snd, t ∉ [((2:ℚ),(20:ℚ))].map Prod.snd) ∧
    add_new_records (add_new_records [] [((1:ℚ),(10:ℚ))]) [((2:ℚ),(20:ℚ))]
      ≠ add_new_records (add_new_records [] [((2:ℚ),(20:ℚ))]) [((1:ℚ),(10:ℚ))] := by
  constructor
  · decide
  · decide

/-- C6 (amended): for batches with disjoint timestamp sets the two merge
orders agree up to permutation of rows — the same multiset of samples,
though generally in different sequence order. -/
theorem add_new_records_comm_perm (S B1 B2 : List Sample)
    (h : ∀ t ∈ B1.map Prod.snd, t ∉ B2.map Prod.snd) :
    List.Perm (add_new_records (add_new_records S B1) B2)
      (add_new_records (add_new_records S B2) B1) := by
  have e1 := add_new_records_eq_append B1 S
  have e2 := add_new_records_eq_append B2 S
  have e12 := add_new_records_eq_append B2 (S ++ new_recs S B1)
  have e21 := add_new_records_eq_append B1 (S ++ new_recs S B2)
  have h2 : new_recs (S ++ new_recs S B1) B2 = new_recs S B2 := by
    refine new_recs_congr B2 _ _ fun t ht => ?same
    have hnot : t ∉ (new_recs S B1).map Prod.snd := by
      intro hc
      exact h t (snd_new_recs_subset B1 S t hc) ht
    simp only [List.map_append, List.mem_append]
    simp [hnot]
  have h1 : new_recs (S ++ new_recs S B2) B1 = new_recs S B1 := by
    refine new_recs_congr B1 _ _ fun t ht => ?same2
    have hnot : t ∉ (new_recs S B2).map Prod.snd := by
      intro hc
      exact h t ht (snd_new_recs_subset B2 S t hc)
    simp only [List.map_append, List.mem_append]
    simp [hnot]
  rw [e1, e12, h2, e2, e21, h1, List.append_assoc, List.append_assoc]
  exact List.Perm.append_left S List.perm_append_comm

/-- C6 witness: a concrete disjoint pair of batches for which the amended
theorem gives the permutation. -/
theorem add_new_records_comm_perm_witness :
    (∀ t ∈ [((1:ℚ),(10:ℚ))].map Prod.snd, t ∉ [((2:ℚ),(20:ℚ))].map Prod.snd) ∧
    List.Perm
      (add_new_records (add_new_records [((5:ℚ),(1:ℚ))] [((1:ℚ),(10:ℚ))]) [((2:ℚ),(20:ℚ))])
      (add_new_records (add_new_records [((5:ℚ),(1:ℚ))] [((2:ℚ),(20:ℚ))]) [((1:ℚ),(10:ℚ))]) :=
  ⟨by decide, add_new_records_comm_perm [((5:ℚ),(1:ℚ))] _ _ (by decide)⟩

/-! ### Helper lemmas: the refresh window -/

theorem pyInt_of_nonneg {q : ℚ} (h : 0 ≤ q) : pyInt q = ⌊q⌋ := by
  simp [pyInt, h]

theorem timediff_minutes_mul_le {latest now1 : ℚ} (h : latest ≤ now1) :
    60 * ((timediff_minutes latest now1 : ℤ) : ℚ) ≤ now1 - latest := by
  have hd : (0:ℚ) ≤ now1 - latest := by linarith
  have hfd : timediff_minutes latest now1 = ⌊now1 - latest⌋ / 60 := by
    rw [timediff_minutes, pyInt_of_nonneg hd, Int.fdiv_eq_ediv _ (by norm_num)]
  have hmod : 0 ≤ ⌊now1 - latest⌋ % 60 := Int.emod_nonneg _ (by norm_num)
  have hdm := Int.ediv_add_emod ⌊now1 - latest⌋ 60
  have hz : 60 * (⌊now1 - latest⌋ / 60) ≤ ⌊now1 - latest⌋ := by omega
  have hq : ((60 * (⌊now1 - latest⌋ / 60) : ℤ) : ℚ) ≤ ((⌊now1 - latest⌋ : ℤ) : ℚ) := by
    exact_mod_cast hz
  have hfl : ((⌊now1 - latest⌋ : ℤ) : ℚ) ≤ now1 - latest := Int.floor_le _
  rw [hfd]
  push_cast at hq ⊢
  linarith

/-- C1 counterexample: latest sample at time 0, clock (both readings) at
390 s.  The gap is 6.5 minutes, so with the source's threshold of 5 the
refresh decides to fetch; but the requested window starts at
`390 - 6*60 = 30`, not at the latest sample's timestamp 0 — the claimed
"window starts exactly at T" fails (by half a minute, lost to the
whole-minute truncation of the gap). -/
theorem refresh_start_time_counterexample :
    refresh_fetch_decision 0 390 5 = true ∧ refresh_start_time 0 390 390 ≠ 0 := by
  constructor
  · norm_num [refresh_fetch_decision, timediff_minutes, pyInt, Int.fdiv,
      (by norm_num : ⌊(390:ℚ) - 0⌋ = 390)]
  · norm_num [refresh_start_time, timediff_minutes, pyInt, Int.fdiv,
      (by norm_num : ⌊(390:ℚ) - 0⌋ = 390)]

theorem refresh_start_time_ge_latest {latest now1 now2 : ℚ}
    (h1 : latest ≤ now1) (h2 : now1 ≤ now2) :
    latest ≤ refresh_start_time latest now1 now2 := by
  have := timediff_minutes_mul_le h1
  rw [refresh_start_time]
  linarith

/-- C1 (amended): the fetched window never starts earlier than the latest
known sample's timestamp `T` (so no already-covered range is re-fetched),
but it generally starts later than `T`: its start is
`now₂ - 60·⌊(now₁ - T)/60⌋` for the two successive clock readings
`now₁ ≤ now₂` of the refresh, i.e. up to a minute (plus clock drift) after
`T`. -/
theorem refresh_start_time_never_earlier (latest now1 now2 : ℚ)
    (h1 : latest ≤ now1) (h2 : now1 ≤ now2) :
    latest ≤ refresh_start_time latest now1 now2 :=
  refresh_start_time_ge_latest h1 h2

/-- C1 witness: the amended theorem at latest = 0, now₁ = 390, now₂ = 400. -/
theorem refresh_start_time_never_earlier_witness :
    (0:ℚ) ≤ 390 ∧ (390:ℚ) ≤ 400 ∧ (0:ℚ) ≤ refresh_start_time 0 390 400 :=
  ⟨by norm_num, by norm_num,
    refresh_start_time_never_earlier 0 390 400 (by norm_num) (by norm_num)⟩

/-! ### The interpolated timestamps of a download -/

/-- C9 counterexample: a fetch starting at 0.6 s (a start instant carrying
microseconds, as `datetime.now()` produces) over `[0.6, 10]` with 10
returned points.  The source truncates the *start* to the whole second
before adding the offsets, while the claimed formula truncates only the
final interpolated instant: the first point gets `⌊0 + 0.94⌋ = 0` in the
code but `⌊0.6 + 0.94⌋ = 1` per the claim. -/
theorem download_timestamps_counterexample :
    download_hist_data_timestamps (3/5) 10 10 ≠ download_timestamps_spec (3/5) 10 10 := by
  norm_num [download_hist_data_timestamps, download_timestamps_spec, truncSec, List.range_succ]

/-- C9 (amended): point i of n gets
`trunc_sec(trunc_sec(start) + i*(end-start)/n)` — the whole-second
truncation hits the start before the offset is added, while the spacing
uses the untruncated interval; whenever the start is second-aligned this
coincides with the claimed `trunc_sec(start + i*(end-start)/n)`.  The
payload's own per-point timestamps are never read in either case. -/
theorem download_timestamps_whole_second_matches_spec (time_s time_e : ℚ) (n : ℕ)
    (h : truncSec time_s = time_s) :
    download_hist_data_timestamps time_s time_e n = download_timestamps_spec time_s time_e n := by
  unfold download_hist_data_timestamps download_timestamps_spec
  rw [h]

/-- C9 witness: the amended theorem at the second-aligned input
start = 100, end = 160, n = 2. -/
theorem download_timestamps_whole_second_witness :
    truncSec 100 = 100 ∧
    download_hist_data_timestamps 100 160 2 = download_timestamps_spec 100 160 2 :=
  ⟨by norm_num [truncSec],
    download_timestamps_whole_second_matches_spec 100 160 2 (by norm_num [truncSec])⟩

/-- C4 counterexample: a sorted series with samples at times 10 and 30
merged with a batch containing time 20 — `add_new_records` appends the new
row at the tail, yielding times (10, 30, 20): the merge result is *not*
re-sorted ascending. -/
theorem merge_not_sorted_counterexample :
    timesSorted [((1:ℚ),(10:ℚ)), (3,30)] ∧
    ¬ timesSorted (add_new_records [((1:ℚ),(10:ℚ)), (3,30)] [(2,20)]) := by
  constructor
  · decide
  · decide

theorem download_timestamps_pairwise_lt {s e : ℚ} {n : ℕ}
    (hd : 1 ≤ (e - s) / (n : ℚ)) :
    List.Pairwise (· < ·) (download_hist_data_timestamps s e n) := by
  unfold download_hist_data_timestamps
  rw [List.pairwise_map]
  refine (List.pairwise_lt_range n).imp ?step
  intro i j hij
  have hij' : (i : ℚ) + 1 ≤ (j : ℚ) := by exact_mod_cast hij
  have hd0 : (0:ℚ) ≤ (e - s) / (n : ℚ) := le_trans zero_le_one hd
  have hstep : truncSec s + ((i : ℚ) + 1) * ((e - s) / (n : ℚ)) + 1
      ≤ truncSec s + ((j : ℚ) + 1) * ((e - s) / (n : ℚ)) := by
    have hgap : (1:ℚ) * 1 ≤ ((j : ℚ) + 1 - ((i : ℚ) + 1)) * ((e - s) / (n : ℚ)) :=
      mul_le_mul (by linarith) hd zero_le_one (by linarith)
    nlinarith
  have hfl : ⌊truncSec s + ((i : ℚ) + 1) * ((e - s) / (n : ℚ))⌋ + 1
      ≤ ⌊truncSec s + ((j : ℚ) + 1) * ((e - s) / (n : ℚ))⌋ := by
    rw [← Int.floor_add_one]
    exact Int.floor_le_floor hstep
  show truncSec (truncSec s + ((i : ℚ) + 1) * ((e - s) / (n : ℚ)))
      < truncSec (truncSec s + ((j : ℚ) + 1) * ((e - s) / (n : ℚ)))
  unfold truncSec
  exact_mod_cast Int.lt_iff_add_one_le.mpr hfl

theorem download_timestamps_gt {T s e : ℚ} {n : ℕ}
    (hd : 1 ≤ (e - s) / (n : ℚ)) (hT : truncSec T = T) (hTs : T ≤ s) :
    ∀ t ∈ download_hist_data_timestamps s e n, T < t := by
  intro t ht
  unfold download_hist_data_timestamps at ht
  rcases List.mem_map.mp ht with ⟨i, _, rfl⟩
  have hb : T ≤ truncSec s := by
    have hfl : ⌊T⌋ ≤ ⌊s⌋ := Int.floor_le_floor hTs
    calc T = truncSec T := hT.symm
    _ ≤ truncSec s := by unfold truncSec; exact_mod_cast hfl
  have hd0 : (0:ℚ) ≤ (e - s) / (n : ℚ) := le_trans zero_le_one hd
  have hoff : (1:ℚ) ≤ ((i : ℚ) + 1) * ((e - s) / (n : ℚ)) := by
    have h0 : (0:ℚ) ≤ (i : ℚ) := Nat.cast_nonneg i
    nlinarith
  have hx : T + 1 ≤ truncSec s + ((i : ℚ) + 1) * ((e - s) / (n : ℚ)) := by linarith
  have hzT : (⌊T⌋ : ℚ) = T := hT
  have hfl2 : ⌊T⌋ + 1 ≤ ⌊truncSec s + ((i : ℚ) + 1) * ((e - s) / (n : ℚ))⌋ := by
    rw [Int.le_floor]
    push_cast
    rw [hzT]
    exact hx
  have hfinal : T + 1 ≤ truncSec (truncSec s + ((i : ℚ) + 1) * ((e - s) / (n : ℚ))) := by
    unfold truncSec
    calc T + 1 = (⌊T⌋ : ℚ) + 1 := by rw [hzT]
    _ = ((⌊T⌋ + 1 : ℤ) : ℚ) := by push_cast; ring
    _ ≤ _ := by exact_mod_cast hfl2
  linarith

theorem length_download_timestamps (s e : ℚ) (n : ℕ) :
    (download_hist_data_timestamps s e n).length = n := by
  unfold download_hist_data_timestamps
  rw [List.length_map, List.length_range]

theorem snd_zip_download (prices : List ℚ) (s e : ℚ) :
    (prices.zip (download_hist_data_timestamps s e prices.length)).map Prod.snd
      = download_hist_data_timestamps s e prices.length :=
  List.map_snd_zip _ _ (by rw [length_download_timestamps])

theorem timediff_minutes_nonneg {latest now1 : ℚ} (h : latest ≤ now1) :
    0 ≤ timediff_minutes latest now1 := by
  have hd : (0:ℚ) ≤ now1 - latest := by linarith
  rw [timediff_minutes, pyInt_of_nonneg hd, Int.fdiv_eq_ediv _ (by norm_num)]
  exact Int.ediv_nonneg (Int.floor_nonneg.mpr hd) (by norm_num)

theorem refresh_window_nonneg {latest now1 now2 : ℚ}
    (h1 : latest ≤ now1) (n : ℕ) :
    0 ≤ (now2 - refresh_start_time latest now1 now2) / (n : ℚ) := by
  have hm : (0:ℚ) ≤ ((timediff_minutes latest now1 : ℤ) : ℚ) := by
    exact_mod_cast timediff_minutes_nonneg h1
  apply div_nonneg
  · rw [refresh_start_time]
    linarith
  · exact Nat.cast_nonneg n

theorem download_timestamps_pairwise_le {s e : ℚ} {n : ℕ}
    (hd0 : 0 ≤ (e - s) / (n : ℚ)) :
    List.Pairwise (· ≤ ·) (download_hist_data_timestamps s e n) := by
  unfold download_hist_data_timestamps
  rw [List.pairwise_map]
  refine (List.pairwise_lt_range n).imp ?step
  intro i j hij
  have hij' : (i : ℚ) ≤ (j : ℚ) := by exact_mod_cast le_of_lt hij
  have hstep : truncSec s + ((i : ℚ) + 1) * ((e - s) / (n : ℚ))
      ≤ truncSec s + ((j : ℚ) + 1) * ((e - s) / (n : ℚ)) := by
    have hmul := mul_le_mul_of_nonneg_right
      (by linarith : (i:ℚ) + 1 ≤ (j:ℚ) + 1) hd0
    linarith
  show truncSec (truncSec s + ((i : ℚ) + 1) * ((e - s) / (n : ℚ)))
      ≤ truncSec (truncSec s + ((j : ℚ) + 1) * ((e - s) / (n : ℚ)))
  unfold truncSec
  exact_mod_cast Int.floor_le_floor hstep

theorem download_timestamps_ge {T s e : ℚ} {n : ℕ}
    (hd0 : 0 ≤ (e - s) / (n : ℚ)) (hT : truncSec T = T) (hTs : T ≤ s) :
    ∀ t ∈ download_hist_data_timestamps s e n, T ≤ t := by
  intro t ht
  unfold download_hist_data_timestamps at ht
  rcases List.mem_map.mp ht with ⟨i, _, rfl⟩
  have hb : T ≤ truncSec s := by
    have hfl : ⌊T⌋ ≤ ⌊s⌋ := Int.floor_le_floor hTs
    calc T = truncSec T := hT.symm
    _ ≤ truncSec s := by unfold truncSec; exact_mod_cast hfl
  have hoff : (0:ℚ) ≤ ((i : ℚ) + 1) * ((e - s) / (n : ℚ)) := by
    have h0 : (0:ℚ) ≤ (i : ℚ) := Nat.cast_nonneg i
    nlinarith
  have hzT : (⌊T⌋ : ℚ) = T := hT
  have hfl2 : ⌊T⌋ ≤ ⌊truncSec s + ((i : ℚ) + 1) * ((e - s) / (n : ℚ))⌋ := by
    rw [Int.le_floor, hzT]
    linarith
  calc T = (⌊T⌋ : ℚ) := hzT.symm
  _ ≤ truncSec (truncSec s + ((i : ℚ) + 1) * ((e - s) / (n : ℚ))) := by
    unfold truncSec
    exact_mod_cast hfl2

/-- C4 (amended): the merge itself does not sort (see the counterexample);
what holds on the refresh path is preservation: when the series is sorted
with maximal timestamp `latest`, the timestamps are second-aligned
(`truncSec latest = latest`), and the two clock readings satisfy
`latest ≤ now₁ ≤ now₂`, the concatenation performed by `refresh_dataframe`
leaves the `time` column non-decreasing — for any number of returned points
(the fetched window has non-negative length, so the synthesized timestamps
are non-decreasing and at least the previous maximum).  (On the bootstrap
path the source sorts once, after all tiers are merged, not after each
merge.) -/
theorem refresh_dataframe_preserves_sorted (df : List Sample)
    (latest now1 now2 : ℚ) (min_diff : ℤ) (prices : List ℚ)
    (hs : timesSorted df) (hmax : colMax df = some latest)
    (hint : truncSec latest = latest)
    (h1 : latest ≤ now1) (h2 : now1 ≤ now2) :
    timesSorted (refresh_dataframe df latest now1 now2 min_diff prices) := by
  unfold refresh_dataframe timesSorted
  by_cases hdec : refresh_fetch_decision latest now1 min_diff
  · rw [if_pos hdec, List.map_append, snd_zip_download]
    have hd0 : 0 ≤ (now2 - refresh_start_time latest now1 now2) / (prices.length : ℚ) :=
      refresh_window_nonneg h1 prices.length
    refine List.pairwise_append.mpr ⟨hs, ?sorted_new, ?cross⟩
    · exact download_timestamps_pairwise_le hd0
    · intro a ha b hb
      have haT : a ≤ latest := listMax_ge hmax a ha
      have hTs : latest ≤ refresh_start_time latest now1 now2 :=
        refresh_start_time_ge_latest h1 h2
      have hbT : latest ≤ b := download_timestamps_ge hd0 hint hTs b hb
      linarith
  · rw [if_neg hdec]
    exact hs

/-- C4 witness: the one-sample series at time 100 s refreshed at clock
reading 160 s with 61 returned points — sub-second spacing (60/61 s), the
very case that breaks distinctness in the C10 counterexample — still yields
a non-decreasing time column. -/
theorem refresh_dataframe_preserves_sorted_witness :
    timesSorted [((5:ℚ),(100:ℚ))] ∧ colMax [((5:ℚ),(100:ℚ))] = some 100 ∧
    truncSec 100 = 100 ∧ (100:ℚ) ≤ 160 ∧ (160:ℚ) ≤ 160 ∧
    timesSorted (refresh_dataframe [((5:ℚ),(100:ℚ))] 100 160 160 0
      (List.replicate 61 (1:ℚ))) :=
  ⟨by decide, by decide, by norm_num [truncSec], by norm_num, by norm_num,
    refresh_dataframe_preserves_sorted _ 100 160 160 0 _ (by decide) (by decide)
      (by norm_num [truncSec]) (by norm_num) (by norm_num)⟩

/-- C10 counterexample: one sample at time 100 s, clock at 160 s, threshold
0 minutes: the refresh fetches the window [100, 160].  If the API returns 61
price points, the per-point spacing is 60/61 s, and the first synthesized
timestamp is `⌊100 + 60/61⌋ = 100` — equal to the previous latest sample's
timestamp, not strictly greater than the window start.  The concatenation
then holds time 100 twice: a series with pairwise-distinct timestamps loses
the invariant. -/
theorem refresh_dataframe_duplicates_counterexample :
    (([((5:ℚ),(100:ℚ))].map Prod.snd).Nodup) ∧
    colMax [((5:ℚ),(100:ℚ))] = some 100 ∧
    ¬ ((refresh_dataframe [((5:ℚ),(100:ℚ))] 100 160 160 0
        (List.replicate 61 (1:ℚ))).map Prod.snd).Nodup := by
  refine ⟨by decide, by decide, ?dup⟩
  have hfloor : ⌊(160:ℚ) - 100⌋ = 60 := by norm_num
  have hdec : refresh_fetch_decision 100 160 0 = true := by
    norm_num [refresh_fetch_decision, timediff_minutes, pyInt, Int.fdiv, hfloor]
  have hstart : refresh_start_time 100 160 160 = 100 := by
    norm_num [refresh_start_time, timediff_minutes, pyInt, Int.fdiv, hfloor]
  have hmem : (100:ℚ) ∈ download_hist_data_timestamps 100 160 61 := by
    unfold download_hist_data_timestamps
    refine List.mem_map.mpr ⟨0, by simp, ?val⟩
    norm_num [truncSec]
  intro hnd
  unfold refresh_dataframe at hnd
  rw [if_pos hdec, List.map_append, hstart] at hnd
  simp only [List.length_replicate] at hnd
  rw [List.map_snd_zip _ _
    (by simp [length_download_timestamps])] at hnd
  simp only [List.map_cons, List.map_nil, List.singleton_append] at hnd
  exact (List.nodup_cons.mp hnd).1 hmem

/-- C10 (amended): the appended timestamps are strictly beyond the previous
latest sample only under a spacing condition; when the per-point spacing of
the fetched batch is at least one second, the previous latest timestamp is
second-aligned and the clock readings satisfy `latest ≤ now₁ ≤ now₂`, every
synthesized timestamp is strictly greater than `latest` and they are
pairwise distinct, so a series with pairwise-distinct timestamps keeps that
invariant through `refresh_dataframe`'s raw concatenation.  (Without the
spacing condition the invariant can break — see the counterexample.) -/
theorem refresh_dataframe_preserves_nodup (df : List Sample)
    (latest now1 now2 : ℚ) (min_diff : ℤ) (prices : List ℚ)
    (hnd : (df.map Prod.snd).Nodup) (hmax : colMax df = some latest)
    (hint : truncSec latest = latest)
    (h1 : latest ≤ now1) (h2 : now1 ≤ now2)
    (hd : 1 ≤ (now2 - refresh_start_time latest now1 now2) / (prices.length : ℚ)) :
    ((refresh_dataframe df latest now1 now2 min_diff prices).map Prod.snd).Nodup := by
  unfold refresh_dataframe
  by_cases hdec : refresh_fetch_decision latest now1 min_diff
  · rw [if_pos hdec, List.map_append, snd_zip_download]
    refine List.nodup_append.mpr ⟨hnd, ?new_nodup, ?disj⟩
    · exact (download_timestamps_pairwise_lt hd).imp ne_of_lt
    · intro a ha hb
      have haT : a ≤ latest := listMax_ge hmax a ha
      have hTs := refresh_start_time_ge_latest h1 h2
      have hgt := download_timestamps_gt hd hint hTs a hb
      linarith
  · rw [if_neg hdec]
    exact hnd

/-- C10 witness: one sample at time 200 s, clock at 560 s, threshold 5
minutes, two returned points (spacing 180 s ≥ 1 s): the refreshed series
keeps pairwise-distinct timestamps. -/
theorem refresh_dataframe_preserves_nodup_witness :
    (([((7:ℚ),(200:ℚ))].map Prod.snd).Nodup) ∧ colMax [((7:ℚ),(200:ℚ))] = some 200 ∧
    truncSec 200 = 200 ∧ (200:ℚ) ≤ 560 ∧ (560:ℚ) ≤ 560 ∧
    1 ≤ ((560:ℚ) - refresh_start_time 200 560 560) / (([(1:ℚ),2].length : ℚ)) ∧
    ((refresh_dataframe [((7:ℚ),(200:ℚ))] 200 560 560 5 [(1:ℚ),2]).map Prod.snd).Nodup := by
  have hstart : refresh_start_time 200 560 560 = 200 := by
    norm_num [refresh_start_time, timediff_minutes, pyInt, Int.fdiv,
      (by norm_num : ⌊(560:ℚ) - 200⌋ = 360)]
  refine ⟨by decide, by decide, by norm_num [truncSec], by norm_num, by norm_num, ?hd, ?concl⟩
  · rw [hstart]; norm_num
  · exact refresh_dataframe_preserves_nodup _ 200 560 560 5 _ (by decide) (by decide)
      (by norm_num [truncSec]) (by norm_num) (by norm_num) (by rw [hstart]; norm_num)

/-! ### Boundary lookup and the statistics computation -/

theorem mem_snd_of_mem_snd_filterBetween {df : List Sample} {s e t : ℚ}
    (h : t ∈ (dfFilterBetween df s e).map Prod.snd) : t ∈ df.map Prod.snd := by
  rcases List.mem_map.mp h with ⟨r, hr, hrt⟩
  exact List.mem_map.mpr ⟨r, (List.mem_filter.mp hr).1, hrt⟩

/-- C5: on a slice produced by the cut, the boundary lookup returns the
minimum time of the slice as `oldest` and the maximum as `latest` — pure
min/max semantics.  The source has no notion of a target instant at all
(`get_time_area_extremes` takes only the cut bounds), so the returned
boundaries cannot depend on distance to any target. -/
theorem get_time_area_extremes_min_max (df : List Sample) (s e o l : ℚ)
    (h1 : (get_time_area_extremes df s e true).1 = some o)
    (h2 : (get_time_area_extremes df s e true).2 = some l) :
    (o ∈ (dfFilterBetween df s e).map Prod.snd ∧
      ∀ t ∈ (dfFilterBetween df s e).map Prod.snd, o ≤ t) ∧
    (l ∈ (dfFilterBetween df s e).map Prod.snd ∧
      ∀ t ∈ (dfFilterBetween df s e).map Prod.snd, t ≤ l) := by
  unfold get_time_area_extremes at h1 h2
  simp only [if_true] at h1 h2
  exact ⟨⟨listMin_mem h1, listMin_le h1⟩, ⟨listMax_mem h2, listMax_ge h2⟩⟩

/-- C5 witness: a slice with samples at times 10, 20 and 30 — `oldest` is
the sample time 10 (the slice minimum, regardless of any notional target
such as 15) and `latest` is 30. -/
theorem get_time_area_extremes_min_max_witness :
    (get_time_area_extremes [((1:ℚ),(10:ℚ)),(2,20),(3,30)] 0 100 true).1 = some 10 ∧
    (get_time_area_extremes [((1:ℚ),(10:ℚ)),(2,20),(3,30)] 0 100 true).2 = some 30 ∧
    (((10:ℚ) ∈ (dfFilterBetween [((1:ℚ),(10:ℚ)),(2,20),(3,30)] 0 100).map Prod.snd ∧
      ∀ t ∈ (dfFilterBetween [((1:ℚ),(10:ℚ)),(2,20),(3,30)] 0 100).map Prod.snd, 10 ≤ t) ∧
    ((30:ℚ) ∈ (dfFilterBetween [((1:ℚ),(10:ℚ)),(2,20),(3,30)] 0 100).map Prod.snd ∧
      ∀ t ∈ (dfFilterBetween [((1:ℚ),(10:ℚ)),(2,20),(3,30)] 0 100).map Prod.snd, t ≤ 30)) :=
  ⟨by decide, by decide,
    get_time_area_extremes_min_max _ 0 100 10 30 (by decide) (by decide)⟩

theorem filterTimeEq_some (df : List Sample) (t0 : ℚ) :
    filterTimeEq df (some t0) = df.filter (fun r => decide (r.2 = t0)) := rfl

theorem filterTimeEq_none (df : List Sample) : filterTimeEq df none = [] := rfl

theorem filterTimeEq_head_some {df : List Sample} {t : ℚ}
    (h : t ∈ df.map Prod.snd) :
    ∃ row, (filterTimeEq df (some t)).head? = some row ∧ row ∈ df ∧ row.2 = t := by
  rw [filterTimeEq_some]
  rcases List.mem_map.mp h with ⟨r, hr, hrt⟩
  have hne : df.filter (fun x => decide (x.2 = t)) ≠ [] := by
    intro hempty
    have hmem : r ∈ df.filter (fun x => decide (x.2 = t)) :=
      List.mem_filter.mpr ⟨hr, by simp [hrt]⟩
    rw [hempty] at hmem
    exact List.not_mem_nil r hmem
  cases hf : df.filter (fun x => decide (x.2 = t)) with
  | nil => exact absurd hf hne
  | cons a as =>
    have hmem : a ∈ df.filter (fun x => decide (x.2 = t)) := by
      rw [hf]; exact List.mem_cons_self a as
    refine ⟨a, rfl, (List.mem_filter.mp hmem).1, ?timeq⟩
    have := (List.mem_filter.mp hmem).2
    simpa using this

/-- C2 counterexample: a series covering only one day (samples at 0 s and
86400 s) queried with a one-year lookback (31536000 s) from reference time
86400.  All its samples fall inside the window, so the boundary lookup
returns the series' own extremes and the computation *succeeds* with the
change over the available history — it does not fail at all, let alone with
a `StatsError(InsufficientHistory)` (no such error exists in the source). -/
theorem print_move_stats_short_history_counterexample :
    print_move_stats [((100:ℚ),(0:ℚ)), (110, 86400)] (fun _ => none) "usd" 86400 31536000
      = Except.ok (100, 110, 10) := by
  norm_num [print_move_stats, get_time_area_extremes, dfFilterBetween, filterTimeEq,
    listMin, listMax, List.filter, (by decide : strUpper "usd" = "USD")]

/-- C2 (amended): whenever the series has at least one sample inside the
lookback window — however much shorter than the window its history is — and
prices and exchange rates are nonzero, the computation returns a result
(over the available history) instead of failing; the only failing shape is
an *empty* window slice, which raises an untyped IndexError. -/
theorem print_move_stats_short_history_ok (df : List Sample)
    (rates : String → Option ℚ) (fiat : String) (ct dl : ℚ)
    (h1 : dfFilterBetween df (ct - dl) ct ≠ [])
    (h2 : ∀ r ∈ df, r.1 ≠ 0)
    (h3 : ∀ c q, rates c = some q → q ≠ 0) :
    ∃ res, print_move_stats df rates fiat ct dl = Except.ok res := by
  have hmapne : (dfFilterBetween df (ct - dl) ct).map Prod.snd ≠ [] := by
    simpa using h1
  obtain ⟨o, ho⟩ := listMin_of_ne_nil hmapne
  obtain ⟨l, hl⟩ := listMax_of_ne_nil hmapne
  obtain ⟨rowO, hrowO, hrowO_df, _⟩ :=
    filterTimeEq_head_some (mem_snd_of_mem_snd_filterBetween (listMin_mem ho))
  obtain ⟨rowL, hrowL, _, _⟩ :=
    filterTimeEq_head_some (mem_snd_of_mem_snd_filterBetween (listMax_mem hl))
  have hex : get_time_area_extremes df (ct - dl) ct true = (some o, some l) := by
    unfold get_time_area_extremes
    simp only [if_true]
    rw [ho, hl]
  have hO : rowO.1 ≠ 0 := h2 rowO hrowO_df
  by_cases hf : strUpper fiat = "USD"
  · refine ⟨(rowO.1, rowL.1, (rowL.1 / rowO.1 - 1) * 100), ?usd⟩
    simp only [print_move_stats, hex]
    rw [hrowO, hrowL]
    simp [hf, hO]
  · cases hr : rates (strUpper fiat) with
    | none =>
      refine ⟨(rowO.1, rowL.1, (rowL.1 / rowO.1 - 1) * 100), ?unknown⟩
      simp only [print_move_stats, hex]
      rw [hrowO, hrowL]
      simp [hf, hr, hO]
    | some q =>
      have hq : q ≠ 0 := h3 _ _ hr
      refine ⟨(rowO.1 * q, rowL.1 * q, (rowL.1 * q / (rowO.1 * q) - 1) * 100), ?conv⟩
      simp only [print_move_stats, hex]
      rw [hrowO, hrowL]
      simp [hf, hr, mul_ne_zero hO hq]

/-- C2 witness: the amended theorem at the one-day series with a one-year
window and a CZK rate snapshot. -/
theorem print_move_stats_short_history_ok_witness :
    dfFilterBetween [((100:ℚ),(0:ℚ)), (110, 86400)] (86400 - 31536000) 86400 ≠ [] ∧
    (∃ res, print_move_stats [((100:ℚ),(0:ℚ)), (110, 86400)]
      (fun c => if c = "CZK" then some (22:ℚ) else none) "czk" 86400 31536000
        = Except.ok res) := by
  have h1 : dfFilterBetween [((100:ℚ),(0:ℚ)), (110, 86400)] (86400 - 31536000) 86400 ≠ [] := by
    norm_num [dfFilterBetween, List.filter]
    simp
  refine ⟨h1, ?ex⟩
  exact print_move_stats_short_history_ok _ _ "czk" _ _ h1 (by decide)
    (by
      intro c q hq
      by_cases hc : c = "CZK"
      · rw [hc] at hq
        simp at hq
        rw [← hq]
        norm_num
      · simp [hc] at hq)

/-- C7 counterexample: the rate snapshot holds only CZK; querying with
display currency "xyz" returns the plain USD boundary prices — and the
result is *identical* to the result of the same query with display currency
"usd".  Nothing in the returned data is flagged and the missing currency is
not surfaced anywhere: the conversion is silently skipped (the source's
`if fiat != 'USD' and fiat in self.exchange_rates.keys()` simply falls
through). -/
theorem print_move_stats_unknown_currency_counterexample :
    print_move_stats [((100:ℚ),(10:ℚ)),(110,20)]
        (fun c => if c = "CZK" then some 22 else none) "xyz" 20 10
      = Except.ok (100, 110, 10) ∧
    print_move_stats [((100:ℚ),(10:ℚ)),(110,20)]
        (fun c => if c = "CZK" then some 22 else none) "usd" 20 10
      = Except.ok (100, 110, 10) := by
  constructor
  · norm_num [print_move_stats, get_time_area_extremes, dfFilterBetween, filterTimeEq,
      listMin, listMax, List.filter, (by decide : strUpper "xyz" = "XYZ"),
      eq_false (by decide : ¬ ("XYZ" = "USD")), eq_false (by decide : ¬ ("XYZ" = "CZK"))]
  · norm_num [print_move_stats, get_time_area_extremes, dfFilterBetween, filterTimeEq,
      listMin, listMax, List.filter, (by decide : strUpper "usd" = "USD")]

/-- C7 (amended): when the display currency is absent from the rate
snapshot, the computation does not abort and returns the unconverted USD
boundary prices — but no fallback flag is set and the missing currency is
not surfaced: the entire result coincides with that of a USD query. -/
theorem print_move_stats_unknown_currency_fallback (df : List Sample)
    (rates : String → Option ℚ) (fiat : String) (ct dl : ℚ)
    (h : rates (strUpper fiat) = none) :
    print_move_stats df rates fiat ct dl = print_move_stats df rates "USD" ct dl := by
  have hu : strUpper "USD" = "USD" := by decide
  by_cases hf : strUpper fiat = "USD"
  · simp only [print_move_stats, hf, hu]
  · simp only [print_move_stats, hf, hu, h]
    simp

/-- C7 witness: the amended theorem at the CZK-only snapshot with display
currency "xyz". -/
theorem print_move_stats_unknown_currency_fallback_witness :
    ((fun c => if c = "CZK" then some (22:ℚ) else none) (strUpper "xyz") = none) ∧
    print_move_stats [((100:ℚ),(10:ℚ)),(110,20)]
        (fun c => if c = "CZK" then some (22:ℚ) else none) "xyz" 20 10
      = print_move_stats [((100:ℚ),(10:ℚ)),(110,20)]
        (fun c => if c = "CZK" then some (22:ℚ) else none) "USD" 20 10 :=
  ⟨by decide,
    print_move_stats_unknown_currency_fallback _ _ "xyz" 20 10 (by decide)⟩

/-- C8 counterexample: start sample with price 0 (series `[(0, t=10),
(5, t=20)]`, one-day-style window covering both samples, CZK conversion in
effect).  The computation fails — but with Python's untyped
`ZeroDivisionError` raised by the unguarded `(new_price / old_price - 1)`,
not with any defined `StatsError(DegeneratePrice)`: no such error exists in
the source (the second conjunct separates the two outcomes in the model's
error type, whose `statsDegeneratePrice` constructor is never produced by
the code). -/
theorem print_move_stats_zero_price_counterexample :
    print_move_stats [((0:ℚ),(10:ℚ)),(5,20)]
        (fun c => if c = "CZK" then some 22 else none) "czk" 20 10
      = Except.error FailKind.zeroDivisionError ∧
    (Except.error FailKind.zeroDivisionError : Except FailKind (ℚ × ℚ × ℚ))
      ≠ Except.error FailKind.statsDegeneratePrice := by
  constructor
  · norm_num [print_move_stats, get_time_area_extremes, dfFilterBetween, filterTimeEq,
      listMin, listMax, List.filter, (by decide : strUpper "czk" = "CZK"),
      eq_false (by decide : ¬ ("CZK" = "USD"))]
  · simp

/-- C8 (amended): whenever the resolved window-start sample has price zero,
the computation fails by raising the untyped division-by-zero error (so it
indeed never returns a percentage — no infinite/NaN value can escape — but
the failure is an unhandled `ZeroDivisionError`, not a defined
`StatsError(DegeneratePrice)`). -/
theorem print_move_stats_zero_start_price (df : List Sample)
    (rates : String → Option ℚ) (fiat : String) (ct dl : ℚ) (row : Sample)
    (h1 : resolvedStart df ct dl = some row) (h2 : row.1 = 0) :
    print_move_stats df rates fiat ct dl = Except.error FailKind.zeroDivisionError := by
  unfold resolvedStart at h1
  cases hex1 : (get_time_area_extremes df (ct - dl) ct true).1 with
  | none =>
    rw [hex1, filterTimeEq_none] at h1
    simp at h1
  | some o =>
    rw [hex1] at h1
    have ho : listMin ((dfFilterBetween df (ct - dl) ct).map Prod.snd) = some o := by
      have h' := hex1
      unfold get_time_area_extremes at h'
      simpa using h'
    have hmapne : (dfFilterBetween df (ct - dl) ct).map Prod.snd ≠ [] := by
      intro hnil
      rw [hnil] at ho
      simp [listMin] at ho
    obtain ⟨l, hl⟩ := listMax_of_ne_nil hmapne
    obtain ⟨rowL, hrowL, _, _⟩ :=
      filterTimeEq_head_some (mem_snd_of_mem_snd_filterBetween (listMax_mem hl))
    have hex2 : (get_time_area_extremes df (ct - dl) ct true).2 = some l := by
      unfold get_time_area_extremes
      simpa using hl
    simp only [print_move_stats, hex1, hex2]
    rw [h1, hrowL]
    by_cases hf : strUpper fiat = "USD"
    · simp [hf, h2]
    · cases hr : rates (strUpper fiat) with
      | none => simp [hf, hr, h2]
      | some q => simp [hf, hr, h2]

/-- C8 witness: the amended theorem at a two-sample series whose window
start resolves to the price-0 sample, with a EUR rate present (the zero
survives conversion). -/
theorem print_move_stats_zero_start_price_witness :
    resolvedStart [((0:ℚ),(3:ℚ)),(9,4)] 4 1 = some (0, 3) ∧
    print_move_stats [((0:ℚ),(3:ℚ)),(9,4)]
        (fun c => if c = "EUR" then some 2 else none) "eur" 4 1
      = Except.error FailKind.zeroDivisionError := by
  have h1 : resolvedStart [((0:ℚ),(3:ℚ)),(9,4)] 4 1 = some (0, 3) := by
    norm_num [resolvedStart, get_time_area_extremes, dfFilterBetween, filterTimeEq,
      listMin, listMax, List.filter]
  exact ⟨h1, print_move_stats_zero_start_price _ _ "eur" 4 1 (0, 3) h1 rfl⟩
